import Mathlib

/-!
Verification of the simulive-fi synchronization engine against its source.

Each definition below is a shallow embedding of a function in the
repository: `getServerTime` from src/lib/server-time.ts, the snapshot
handler of src/hooks/useSessionState.ts, the `sync` step of
src/hooks/useServerTimeSync.ts, the `syncPlayer` tick of
src/components/DualVideoPlayer.tsx, and the merge plus pagination logic of
src/hooks/useChat.ts. Machine time values are modelled as rationals
(JavaScript number arithmetic on millisecond instants, where halving can
produce fractional values) or as integers where only comparisons occur.
Fallible operations take their outcome as an explicit `Except` or
`Option` argument.
-/

namespace Simulive

/-! Embedding of src/lib/server-time.ts -/

/-- Millisecond instants and offsets, as JavaScript numbers. -/
abbrev Millis := ℚ

/-- Constant `OFFSET_CACHE_DURATION_MS = 5 * 60 * 1000` from
src/lib/server-time.ts. -/
def OFFSET_CACHE_DURATION_MS : Millis := 5 * 60 * 1000

/-- The module-level mutable state of server-time.ts: the cached
`serverTimeOffset` (null when never synced) and `lastSyncTime`. -/
structure ClockState where
  serverTimeOffset : Option Millis
  lastSyncTime : Millis
deriving DecidableEq

/-- Observation of one successful write-then-read round trip against the
timestamp authority: the local clock when the write was issued
(`startTime`), the server-assigned timestamp read back (`serverTime`), and
the local clock on response (`endTime`). -/
structure RoundTrip where
  startTime : Millis
  serverTime : Millis
  endTime : Millis
deriving DecidableEq

/-- The try-block and catch-block of `getServerTime`
(src/lib/server-time.ts lines 27 to 71): on a successful round trip,
estimate latency as half the round trip, cache
`serverTime - (startTime + latency)` with `lastSyncTime = endTime`, and
return the server timestamp; on failure fall back to the cached offset when
one exists, else fail. `fallbackNow` is the `Date.now()` sampled inside the
catch handler. -/
def getServerTimeAttempt (st : ClockState) (trip : Option RoundTrip)
    (fallbackNow : Millis) : ClockState × Except Unit Millis :=
  match trip with
  | some rt =>
    let latency := (rt.endTime - rt.startTime) / 2
    ({ serverTimeOffset := some (rt.serverTime - (rt.startTime + latency)),
       lastSyncTime := rt.endTime }, .ok rt.serverTime)
  | none =>
    match st.serverTimeOffset with
    | some off => (st, .ok (fallbackNow + off))
    | none => (st, .error ())

/-- One call to `getServerTime` (src/lib/server-time.ts lines 19 to 72).
`now` is the `Date.now()` sampled on entry; a still-valid cached offset is
used directly, otherwise the round trip is attempted. `trip = none` models
a failed round trip. Returns the updated module state and either the
current server time or an error. -/
def getServerTime (st : ClockState) (now : Millis) (trip : Option RoundTrip)
    (fallbackNow : Millis) : ClockState × Except Unit Millis :=
  match st.serverTimeOffset with
  | some off =>
    if now - st.lastSyncTime < OFFSET_CACHE_DURATION_MS then (st, .ok (now + off))
    else getServerTimeAttempt st trip fallbackNow
  | none => getServerTimeAttempt st trip fallbackNow

/-! Embedding of src/hooks/useSessionState.ts -/

/-- The three client-visible phases of a session. -/
inductive SessionState where
  | scheduled
  | live
  | ended
deriving DecidableEq

/-- The fields of a session record that the phase decision reads, plus
`scheduledEnd` (carried to show it plays no role). Times are epoch
milliseconds. -/
structure Session where
  isLive : Bool
  scheduledStart : ℤ
  scheduledEnd : ℤ
deriving DecidableEq

/-- Phase decision of the snapshot handler in useSessionState.ts lines 49
to 59: the live flag wins, else `scheduledStart > now` means scheduled,
else ended. -/
def sessionStateOf (s : Session) (now : ℤ) : SessionState :=
  if s.isLive then .live
  else if now < s.scheduledStart then .scheduled
  else .ended

/-- Snapshot handler of useSessionState.ts lines 43 to 66: an existing
document resolves the phase from its data; a missing document yields a null
session and the ended phase. -/
def handleSessionSnapshot (snap : Option Session) (now : ℤ) :
    Option Session × SessionState :=
  match snap with
  | some s => (some s, sessionStateOf s now)
  | none => (none, .ended)

/-! Embedding of src/hooks/useServerTimeSync.ts -/

/-- The state held by the hook: the live playback offset in seconds and the
synced flag. -/
structure SyncState where
  liveOffset : ℚ
  isSynced : Bool
deriving DecidableEq

/-- One run of the inner `sync` function of useServerTimeSync.ts lines 27
to 53: on a successful `getServerTime` fetch, set the live offset to
`(serverTime - scheduledStart) / 1000` clamped below at zero and mark
synced; on failure leave the state untouched. Times are epoch
milliseconds. -/
def syncStep (st : SyncState) (fetch : Except Unit ℚ) (scheduledStart : ℚ) :
    SyncState :=
  match fetch with
  | .ok serverTime =>
    let offsetInSeconds := (serverTime - scheduledStart) / 1000
    { liveOffset := max 0 offsetInSeconds, isSynced := true }
  | .error _ => st

/-! Embedding of src/components/DualVideoPlayer.tsx -/

/-- Constant `DRIFT_THRESHOLD_SECONDS = 0.25` from DualVideoPlayer.tsx. -/
def DRIFT_THRESHOLD_SECONDS : ℚ := 1 / 4

/-- The observable state of one managed media element: its reported
position in seconds and whether it is paused. -/
structure PlayerState where
  currentTime : ℚ
  paused : Bool
deriving DecidableEq

/-- The `syncPlayer` closure of DualVideoPlayer.tsx lines 47 to 67: read
the current position, seek to `liveOffset` when the absolute drift exceeds
the threshold, then attempt to resume a paused element. `playOk` tells
whether the `play()` promise resolves; a rejection is only logged and the
element stays paused. -/
def syncPlayer (liveOffset : ℚ) (p : PlayerState) (playOk : Bool) : PlayerState :=
  let drift := |p.currentTime - liveOffset|
  let corrected :=
    if DRIFT_THRESHOLD_SECONDS < drift then { p with currentTime := liveOffset } else p
  if corrected.paused then { corrected with paused := !playOk } else corrected

/-- One correction interval tick of DualVideoPlayer.tsx lines 70 to 73:
both players are corrected with the single captured `liveOffset`. -/
def syncTick (liveOffset : ℚ) (main face : PlayerState)
    (playOkMain playOkFace : Bool) : PlayerState × PlayerState :=
  (syncPlayer liveOffset main playOkMain, syncPlayer liveOffset face playOkFace)

/-- Position written by one `syncPlayer` run: the seek target when drift
exceeds the threshold, the old position otherwise; the resume attempt never
moves the position. -/
lemma syncPlayer_currentTime (liveOffset : ℚ) (p : PlayerState) (playOk : Bool) :
    (syncPlayer liveOffset p playOk).currentTime =
      if DRIFT_THRESHOLD_SECONDS < |p.currentTime - liveOffset| then liveOffset
      else p.currentTime := by
  simp only [syncPlayer]
  split_ifs <;> rfl

/-! Embedding of src/hooks/useChat.ts -/

/-- The fields of a chat message the merge and pagination logic read: the
document id and the `createdAt` order key (epoch milliseconds); `content`
stands for the payload. -/
structure Message where
  id : String
  createdAt : ℤ
  content : String
deriving DecidableEq

/-- Snapshot merge of useChat.ts lines 70 to 90: an empty window leaves the
state untouched; otherwise keep the fresh window and retain from the
previous list only the messages strictly older than the oldest window
message and not present in the window by id. -/
def applyWindow (prevMessages newMessages : List Message) : List Message :=
  match newMessages.getLast? with
  | none => prevMessages
  | some oldestLive =>
    newMessages ++ prevMessages.filter (fun m =>
      decide (m.createdAt < oldestLive.createdAt) &&
        !(newMessages.any (fun nm => nm.id == m.id)))

/-- The append performed by `loadMoreMessages` in useChat.ts lines 192 to
231: when the list is empty the function returns before fetching, otherwise
the strictly older page is appended after the existing list. -/
def extendHistory (messages older : List Message) : List Message :=
  if messages.isEmpty then messages else messages ++ older

/-- Newest-first display order of the merged view: larger `createdAt`
first, ties broken by id (descending, following the implicit document-id
sort of the backing query). -/
def msgBefore (a b : Message) : Prop :=
  b.createdAt < a.createdAt ∨ (b.createdAt = a.createdAt ∧ b.id < a.id)

instance (a b : Message) : Decidable (msgBefore a b) :=
  inferInstanceAs (Decidable (_ ∨ _))

/-- Invariant of the merged view: strictly sorted newest-first and free of
duplicate ids. -/
def ViewInv (l : List Message) : Prop :=
  l.Pairwise msgBefore ∧ (l.map Message.id).Nodup

/-- The last element of a list, when present, is a member. -/
lemma mem_of_getLast?_eq {α : Type} {l : List α} {a : α}
    (h : l.getLast? = some a) : a ∈ l := by
  induction l with
  | nil => simp [List.getLast?] at h
  | cons x xs ih =>
    cases xs with
    | nil =>
      simp [List.getLast?] at h
      simp [h]
    | cons y ys =>
      rw [List.getLast?_cons_cons] at h
      exact List.mem_cons_of_mem x (ih h)

/-- In a list sorted newest-first, the last element carries the minimal
order key. -/
lemma getLast?_createdAt_min {l : List Message} {ol : Message}
    (hs : l.Pairwise msgBefore) (h : l.getLast? = some ol) :
    ∀ a ∈ l, ol.createdAt ≤ a.createdAt := by
  induction l with
  | nil => simp [List.getLast?] at h
  | cons x xs ih =>
    have hp := List.pairwise_cons.mp hs
    cases xs with
    | nil =>
      simp [List.getLast?] at h
      intro a ha
      simp at ha
      rw [ha, h]
    | cons y ys =>
      rw [List.getLast?_cons_cons] at h
      intro a ha
      rcases List.mem_cons.mp ha with rfl | ha'
      · have hol : ol ∈ y :: ys := mem_of_getLast?_eq h
        rcases hp.1 ol hol with h1 | ⟨h1, _⟩
        · exact le_of_lt h1
        · exact le_of_eq h1
      · exact ih hp.2 h a ha'

/-- Applying a sorted, duplicate-free window preserves the view
invariant. -/
lemma applyWindow_inv {view w : List Message} (hv : ViewInv view)
    (hw : ViewInv w) : ViewInv (applyWindow view w) := by
  cases hlast : w.getLast? with
  | none =>
    simp only [applyWindow, hlast]
    exact hv
  | some ol =>
    simp only [applyWindow, hlast]
    constructor
    · rw [List.pairwise_append]
      refine ⟨hw.1, List.Pairwise.sublist (List.filter_sublist view) hv.1, ?_⟩
      intro a ha b hb
      have hb' := List.mem_filter.mp hb
      have hbt : b.createdAt < ol.createdAt := by
        have := hb'.2
        simp only [Bool.and_eq_true, decide_eq_true_eq] at this
        exact this.1
      have hat : ol.createdAt ≤ a.createdAt :=
        getLast?_createdAt_min hw.1 hlast a ha
      exact Or.inl (lt_of_lt_of_le hbt hat)
    · rw [List.map_append, List.nodup_append]
      refine ⟨hw.2, ?_, ?_⟩
      · exact List.Nodup.sublist
          (List.Sublist.map Message.id (List.filter_sublist view)) hv.2
      · intro i hiw hif
        rcases List.mem_map.mp hif with ⟨b, hbmem, hbid⟩
        have hb' := List.mem_filter.mp hbmem
        have hnoid : ¬ w.any (fun nm => nm.id == b.id) = true := by
          have := hb'.2
          simp only [Bool.and_eq_true, Bool.not_eq_true'] at this
          rw [this.2]
          simp
        apply hnoid
        rcases List.mem_map.mp hiw with ⟨nm, hnmmem, hnmid⟩
        refine List.any_eq_true.mpr ⟨nm, hnmmem, ?_⟩
        rw [hnmid, hbid]
        exact beq_self_eq_true' i

/-- Contract of one pagination page against the current view: the page
itself is sorted and duplicate-free, every page record is strictly older
than the oldest record of the view (the cursor), and ids identify records,
so equal ids carry equal order keys. -/
def PageOk (view page : List Message) : Prop :=
  ViewInv page ∧
  (match view.getLast? with
   | none => True
   | some ol => ∀ x ∈ page, x.createdAt < ol.createdAt) ∧
  (∀ x ∈ page, ∀ v ∈ view, x.id = v.id → x.createdAt = v.createdAt)

/-- Appending a valid strictly-older page preserves the view invariant. -/
lemma extendHistory_inv {view page : List Message} (hv : ViewInv view)
    (hp : PageOk view page) : ViewInv (extendHistory view page) := by
  unfold extendHistory
  by_cases hne : view.isEmpty
  · simp [hne]
    exact hv
  · rw [if_neg hne]
    have hvne : view ≠ [] := by
      intro hcontra
      rw [hcontra] at hne
      exact hne rfl
    obtain ⟨ol, hlast⟩ : ∃ ol, view.getLast? = some ol := by
      cases hgl : view.getLast? with
      | none => exact absurd (List.getLast?_eq_none_iff.mp hgl) hvne
      | some x => exact ⟨x, rfl⟩
    have hcursor : ∀ x ∈ page, x.createdAt < ol.createdAt := by
      have h := hp.2.1
      simp only [hlast] at h
      exact h
    constructor
    · rw [List.pairwise_append]
      refine ⟨hv.1, hp.1.1, ?_⟩
      intro a ha b hb
      have hbt : b.createdAt < ol.createdAt := hcursor b hb
      have hat : ol.createdAt ≤ a.createdAt :=
        getLast?_createdAt_min hv.1 hlast a ha
      exact Or.inl (lt_of_lt_of_le hbt hat)
    · rw [List.map_append, List.nodup_append]
      refine ⟨hv.2, hp.1.2, ?_⟩
      intro i hiv hipage
      rcases List.mem_map.mp hiv with ⟨v, hvmem, hvid⟩
      rcases List.mem_map.mp hipage with ⟨x, hxmem, hxid⟩
      have hid : x.id = v.id := by rw [hxid, hvid]
      have heq : x.createdAt = v.createdAt := hp.2.2 x hxmem v hvmem hid
      have hlt : x.createdAt < ol.createdAt := hcursor x hxmem
      have hge : ol.createdAt ≤ v.createdAt :=
        getLast?_createdAt_min hv.1 hlast v hvmem
      rw [heq] at hlt
      exact absurd hlt (not_lt.mpr hge)

/-- An operation on the merged view: a subscription window push or a
pagination page append. -/
inductive FeedOp where
  | window (w : List Message)
  | page (p : List Message)

/-- Dispatch of one feed operation onto the merged view. -/
def applyOp (view : List Message) : FeedOp → List Message
  | .window w => applyWindow view w
  | .page p => extendHistory view p

/-- Delivery contract of a single operation: windows arrive sorted and
duplicate-free from the backing query, pages additionally sit strictly
beyond the cursor. -/
def OpOk (view : List Message) : FeedOp → Prop
  | .window w => ViewInv w
  | .page p => PageOk view p

/-- Delivery contract of a whole operation sequence, each operation judged
against the view it is applied to. -/
def OpsOk : List Message → List FeedOp → Prop
  | _, [] => True
  | view, op :: rest => OpOk view op ∧ OpsOk (applyOp view op) rest

/-- A single contract-respecting operation preserves the view invariant. -/
lemma applyOp_inv {view : List Message} {op : FeedOp} (hv : ViewInv view)
    (h : OpOk view op) : ViewInv (applyOp view op) := by
  cases op with
  | window w => exact applyWindow_inv hv h
  | page p => exact extendHistory_inv hv h

/-- A contract-respecting operation sequence preserves the view
invariant. -/
lemma foldl_applyOp_inv {view : List Message} {ops : List FeedOp}
    (hv : ViewInv view) (h : OpsOk view ops) :
    ViewInv (ops.foldl applyOp view) := by
  induction ops generalizing view with
  | nil => simpa using hv
  | cons op rest ih =>
    rw [List.foldl_cons]
    exact ih (applyOp_inv hv h.1) h.2

/-- The state of the chat hook that the snapshot and pagination handlers
mutate. -/
structure ChatState where
  messages : List Message
  loading : Bool
deriving DecidableEq

/-- Snapshot delivery of useChat.ts lines 55 to 99: a successful push
merges the window and clears loading; the error callback (lines 94 to 98)
only reports and clears loading. The returned Bool records whether an error
was surfaced to the user. -/
def handleSnapshot (st : ChatState) (result : Except Unit (List Message)) :
    ChatState × Bool :=
  match result with
  | .ok window =>
    ({ messages := applyWindow st.messages window, loading := false }, false)
  | .error _ => ({ st with loading := false }, true)

/-- Effect of `loadMoreMessages` in useChat.ts lines 192 to 236: a no-op
when no messages are held (line 193); on fetch success the older page is
appended; on failure (lines 232 to 235) the error is reported and the state
kept. -/
def loadMoreMessages (st : ChatState) (fetch : Except Unit (List Message)) :
    ChatState × Bool :=
  if st.messages.isEmpty then (st, false)
  else
    match fetch with
    | .ok page => ({ st with messages := extendHistory st.messages page }, false)
    | .error _ => (st, true)

/-! Claim theorems -/

/-- Claim C1: for every successful clock round trip with local send time
t0, local receive time t1 with t1 at least t0, and server timestamp S, the
offset cached by `getServerTime` equals `S - (t0 + (t1 - t0) / 2)`, so
`t0 + latency + offsetMillis = S` holds exactly over the rationals. The
miss hypothesis states that the cache did not short-circuit the call. -/
theorem getServerTime_offset_correct (st : ClockState) (now fallbackNow : Millis)
    (rt : RoundTrip)
    (hmiss : st.serverTimeOffset = none ∨
      OFFSET_CACHE_DURATION_MS ≤ now - st.lastSyncTime)
    (_ht : rt.startTime ≤ rt.endTime) :
    (getServerTime st now (some rt) fallbackNow).1.serverTimeOffset =
      some (rt.serverTime - (rt.startTime + (rt.endTime - rt.startTime) / 2)) ∧
    rt.startTime + (rt.endTime - rt.startTime) / 2 +
      (rt.serverTime - (rt.startTime + (rt.endTime - rt.startTime) / 2)) =
      rt.serverTime := by
  constructor
  · cases hoff : st.serverTimeOffset with
    | none => simp only [getServerTime, hoff, getServerTimeAttempt]
    | some off =>
      rcases hmiss with h | h
      · rw [hoff] at h
        cases h
      · simp only [getServerTime, hoff, getServerTimeAttempt,
          if_neg (not_lt.mpr h)]
  · ring

/-- Witness for C1: cold cache, round trip issued at local 0, answered at
local 200 with server timestamp 100. -/
theorem getServerTime_offset_correct_witness :
    (getServerTime ⟨none, 0⟩ 0 (some ⟨0, 100, 200⟩) 0).1.serverTimeOffset =
      some ((100 : ℚ) - (0 + (200 - 0) / 2)) ∧
    (0 : ℚ) + (200 - 0) / 2 + (100 - (0 + (200 - 0) / 2)) = 100 :=
  getServerTime_offset_correct ⟨none, 0⟩ 0 0 ⟨0, 100, 200⟩ (Or.inl rfl)
    (by norm_num)

/-- Claim C5: when the round trip fails and a cached offset exists,
`getServerTime` returns a time derived from the unchanged prior offset
instead of failing (whether the cache is still fresh or already stale), and
the call fails exactly when the round trip fails and no cached offset
exists. -/
theorem getServerTime_failure_policy (st : ClockState)
    (now fallbackNow off : Millis) (hoff : st.serverTimeOffset = some off) :
    (getServerTime st now none fallbackNow).2 =
      .ok ((if now - st.lastSyncTime < OFFSET_CACHE_DURATION_MS then now
            else fallbackNow) + off) ∧
    (getServerTime st now none fallbackNow).1 = st ∧
    ∀ (st2 : ClockState) (now2 fb2 : Millis) (trip : Option RoundTrip),
      ((getServerTime st2 now2 trip fb2).2 = .error () ↔
        trip = none ∧ st2.serverTimeOffset = none) := by
  refine ⟨?_, ?_, ?_⟩
  · simp only [getServerTime, hoff, getServerTimeAttempt]
    split_ifs <;> rfl
  · simp only [getServerTime, hoff, getServerTimeAttempt]
    split_ifs <;> rfl
  · intro st2 now2 fb2 trip
    cases hoff2 : st2.serverTimeOffset with
    | none =>
      cases trip with
      | none => simp [getServerTime, getServerTimeAttempt, hoff2]
      | some rt => simp [getServerTime, getServerTimeAttempt, hoff2]
    | some o =>
      cases trip with
      | none =>
        simp only [getServerTime, hoff2, getServerTimeAttempt]
        split_ifs <;> simp [hoff2]
      | some rt =>
        simp only [getServerTime, hoff2, getServerTimeAttempt]
        split_ifs <;> simp [hoff2]

/-- Witness for C5: a cached offset of 5 survives a failed round trip. -/
theorem getServerTime_failure_policy_witness :
    (getServerTime ⟨some 5, 0⟩ 1 none 2).2 =
      .ok ((if (1 : ℚ) - (ClockState.mk (some 5) 0).lastSyncTime <
            OFFSET_CACHE_DURATION_MS then (1 : ℚ) else 2) + 5) ∧
    (getServerTime ⟨some 5, 0⟩ 1 none 2).1 = ⟨some 5, 0⟩ ∧
    ∀ (st2 : ClockState) (now2 fb2 : Millis) (trip : Option RoundTrip),
      ((getServerTime st2 now2 trip fb2).2 = .error () ↔
        trip = none ∧ st2.serverTimeOffset = none) :=
  getServerTime_failure_policy ⟨some 5, 0⟩ 1 2 5 rfl

/-- Claim C2: with the live flag set the resolved phase is live regardless
of start time and now; with the flag clear the phase is scheduled exactly
when now is before the scheduled start and ended otherwise, and the
scheduled end never influences the decision. -/
theorem sessionState_decision (start endA now : ℤ) :
    sessionStateOf ⟨true, start, endA⟩ now = .live ∧
    sessionStateOf ⟨false, start, endA⟩ now =
      (if now < start then .scheduled else .ended) ∧
    (sessionStateOf ⟨false, start, endA⟩ now = .scheduled ↔ now < start) ∧
    ∀ (flag : Bool) (endB : ℤ),
      sessionStateOf ⟨flag, start, endA⟩ now =
        sessionStateOf ⟨flag, start, endB⟩ now := by
  have h2 : sessionStateOf ⟨false, start, endA⟩ now =
      (if now < start then SessionState.scheduled else .ended) := by
    simp [sessionStateOf]
  refine ⟨rfl, h2, ?_, fun flag endB => rfl⟩
  rw [h2]
  split_ifs with h <;> simp [h]

/-- Claim C10: a missing session document resolves to a null session record
and the ended phase, for every value of now. -/
theorem missingSession_resolves_ended (now : ℤ) :
    handleSessionSnapshot none now = (none, .ended) := rfl

/-- Claim C4: a successful sync sets the live offset to the clamped elapsed
time `max 0 ((serverTime - scheduledStart) / 1000)`, which is never
negative, including when the server time is earlier than the scheduled
start. -/
theorem syncStep_liveOffset_clamped (st : SyncState)
    (serverTime scheduledStart : ℚ) :
    (syncStep st (.ok serverTime) scheduledStart).liveOffset =
      max 0 ((serverTime - scheduledStart) / 1000) ∧
    0 ≤ (syncStep st (.ok serverTime) scheduledStart).liveOffset := by
  constructor
  · rfl
  · exact le_max_left 0 _

/-- Claim C3: at one correction tick, a stream whose drift exceeds the
threshold is seeked to the shared expected offset while a stream within the
threshold keeps its position, and each resulting stream state is a function
of that stream and the single offset snapshot alone, so one stream never
affects the other. -/
theorem syncTick_drift_correction (liveOffset : ℚ) (main face : PlayerState)
    (okMain okFace : Bool)
    (hm : DRIFT_THRESHOLD_SECONDS < |main.currentTime - liveOffset|)
    (hf : |face.currentTime - liveOffset| ≤ DRIFT_THRESHOLD_SECONDS) :
    (syncTick liveOffset main face okMain okFace).1.currentTime = liveOffset ∧
    (syncTick liveOffset main face okMain okFace).2.currentTime =
      face.currentTime ∧
    (syncTick liveOffset main face okMain okFace).1 =
      syncPlayer liveOffset main okMain ∧
    (syncTick liveOffset main face okMain okFace).2 =
      syncPlayer liveOffset face okFace := by
  refine ⟨?_, ?_, rfl, rfl⟩
  · rw [show (syncTick liveOffset main face okMain okFace).1 =
      syncPlayer liveOffset main okMain from rfl, syncPlayer_currentTime,
      if_pos hm]
  · rw [show (syncTick liveOffset main face okMain okFace).2 =
      syncPlayer liveOffset face okFace from rfl, syncPlayer_currentTime,
      if_neg (not_lt.mpr hf)]

/-- Witness for C3: expected offset 100; a stream at position 40 drifts by
60 and is corrected, a stream at position 99.75 drifts by exactly the
threshold and is untouched. -/
theorem syncTick_drift_correction_witness :
    (syncTick 100 ⟨40, false⟩ ⟨399 / 4, false⟩ true true).1.currentTime = 100 ∧
    (syncTick 100 ⟨40, false⟩ ⟨399 / 4, false⟩ true true).2.currentTime =
      (PlayerState.mk (399 / 4) false).currentTime ∧
    (syncTick 100 ⟨40, false⟩ ⟨399 / 4, false⟩ true true).1 =
      syncPlayer 100 ⟨40, false⟩ true ∧
    (syncTick 100 ⟨40, false⟩ ⟨399 / 4, false⟩ true true).2 =
      syncPlayer 100 ⟨399 / 4, false⟩ true :=
  syncTick_drift_correction 100 ⟨40, false⟩ ⟨399 / 4, false⟩ true true
    (by
      rw [show (PlayerState.mk 40 false).currentTime - 100 = -60 by norm_num,
        abs_neg, abs_of_nonneg (by norm_num : (0 : ℚ) ≤ 60)]
      norm_num [DRIFT_THRESHOLD_SECONDS])
    (by
      rw [show (PlayerState.mk (399 / 4) false).currentTime - 100 = -(1 / 4)
          by norm_num,
        abs_neg, abs_of_nonneg (by norm_num : (0 : ℚ) ≤ 1 / 4)]
      norm_num [DRIFT_THRESHOLD_SECONDS])

/-- Claim C6: applying the same non-empty window twice in a row yields the
identical merged view; the second application of an unchanged window is a
no-op. -/
theorem applyWindow_idempotent (prev w : List Message) (hw : w ≠ []) :
    applyWindow (applyWindow prev w) w = applyWindow prev w := by
  obtain ⟨ol, hlast⟩ : ∃ ol, w.getLast? = some ol := by
    cases hgl : w.getLast? with
    | none => exact absurd (List.getLast?_eq_none_iff.mp hgl) hw
    | some x => exact ⟨x, rfl⟩
  simp only [applyWindow, hlast]
  rw [List.filter_append]
  have hwnil : w.filter (fun m =>
      decide (m.createdAt < ol.createdAt) &&
        !(w.any fun nm => nm.id == m.id)) = [] := by
    rw [List.filter_eq_nil_iff]
    intro a ha hcontra
    have h2 : (w.any fun nm => nm.id == a.id) = false := by
      simp only [Bool.and_eq_true, Bool.not_eq_true'] at hcontra
      exact hcontra.2
    have h3 : (w.any fun nm => nm.id == a.id) = true :=
      List.any_eq_true.mpr ⟨a, ha, beq_self_eq_true' a.id⟩
    rw [h3] at h2
    cases h2
  rw [hwnil, List.nil_append, List.filter_filter]
  simp only [Bool.and_self]

/-- Witness for C6: a singleton window applied twice. -/
theorem applyWindow_idempotent_witness :
    applyWindow (applyWindow [] [Message.mk "a" 1 "x"]) [Message.mk "a" 1 "x"] =
      applyWindow [] [Message.mk "a" 1 "x"] :=
  applyWindow_idempotent [] [Message.mk "a" 1 "x"] (by simp)

/-- Claim C8: an empty window leaves the existing merged view unchanged and
never reduces its size. -/
theorem applyWindow_empty_preserves (prev : List Message) :
    applyWindow prev [] = prev ∧
    prev.length ≤ (applyWindow prev []).length :=
  ⟨rfl, le_of_eq rfl⟩

/-- Claim C7: after any sequence of window applications and load-more
extensions whose inputs respect the delivery contract of the backing store
(windows sorted and duplicate-free, pages strictly older than the cursor,
ids identifying records), the merged view holds no two records with the
same id and is sorted newest-first, ties broken by id. -/
theorem mergedView_invariant (ops : List FeedOp) (h : OpsOk [] ops) :
    (List.foldl applyOp [] ops).Pairwise msgBefore ∧
    ((List.foldl applyOp [] ops).map Message.id).Nodup :=
  foldl_applyOp_inv ⟨List.Pairwise.nil, List.nodup_nil⟩ h

/-- Concrete operation sequence: one two-message window followed by one
strictly older page. -/
def opsExample : List FeedOp :=
  [FeedOp.window [Message.mk "b" 2 "hi", Message.mk "a" 1 "yo"],
   FeedOp.page [Message.mk "c" 0 "old"]]

/-- Witness for C7: the example sequence satisfies the delivery contract
and so yields a duplicate-free, sorted view. -/
theorem mergedView_invariant_witness :
    (List.foldl applyOp [] opsExample).Pairwise msgBefore ∧
    ((List.foldl applyOp [] opsExample).map Message.id).Nodup :=
  mergedView_invariant opsExample
    (by
      refine ⟨⟨?_, ?_⟩, ⟨⟨?_, ?_⟩, ?_, ?_⟩, trivial⟩
      · decide
      · decide
      · decide
      · decide
      · show ∀ x ∈ [Message.mk "c" 0 "old"],
          x.createdAt < (Message.mk "a" 1 "yo").createdAt
        decide
      · decide)

/-- Claim C9: a failing subscription delivery or pagination fetch reports
the error but leaves the already-merged message list exactly as it was. -/
theorem feedFailure_preserves_view (st : ChatState)
    (hne : st.messages ≠ []) :
    (handleSnapshot st (.error ())).1.messages = st.messages ∧
    (handleSnapshot st (.error ())).2 = true ∧
    (loadMoreMessages st (.error ())).1.messages = st.messages ∧
    (loadMoreMessages st (.error ())).2 = true := by
  have hemp : st.messages.isEmpty = false := by
    cases hm : st.messages with
    | nil => exact absurd hm hne
    | cons x xs => rfl
  refine ⟨rfl, rfl, ?_, ?_⟩
  · simp [loadMoreMessages, hemp]
  · simp [loadMoreMessages, hemp]

/-- Witness for C9: a one-message view survives both failure paths. -/
theorem feedFailure_preserves_view_witness :
    (handleSnapshot ⟨[Message.mk "a" 1 "x"], false⟩ (.error ())).1.messages =
      (ChatState.mk [Message.mk "a" 1 "x"] false).messages ∧
    (handleSnapshot ⟨[Message.mk "a" 1 "x"], false⟩ (.error ())).2 = true ∧
    (loadMoreMessages ⟨[Message.mk "a" 1 "x"], false⟩ (.error ())).1.messages =
      (ChatState.mk [Message.mk "a" 1 "x"] false).messages ∧
    (loadMoreMessages ⟨[Message.mk "a" 1 "x"], false⟩ (.error ())).2 = true :=
  feedFailure_preserves_view ⟨[Message.mk "a" 1 "x"], false⟩ (by simp)

end Simulive
